import Mathlib

set_option maxHeartbeats 1000000
set_option maxRecDepth 8000

namespace Coroot

/- Shallow embedding of the coroot time-series engine (timeseries package),
   the topology constructor (constructor package) and the deployment watcher
   (watchers/deployments package), translated from the Go source.  A float32
   sample is modelled as Option Rat, with none standing for NaN, the missing
   sentinel of the engine; Time and Duration are modelled as Int (unix
   seconds).  Every numeric value appearing in the claims is a small integer,
   so exact rational arithmetic agrees with float32 arithmetic on them. -/

/-- A float32 sample: none models NaN (IsNaN v in Go), some q a real value. -/
abbrev V := Option ℚ

/-- The reduction-function type F from the timeseries package:
    func(Time, float32, float32) float32. -/
abbrev F := Int → V → V → V

/-- NanSum from the timeseries funcs: if IsNaN(sum) it resets sum to 0, adds v
    only when v is not NaN, and returns sum. -/
def NanSum : F := fun _ sum v =>
  let s : ℚ := match sum with
    | none => 0
    | some x => x
  match v with
  | none => some s
  | some x => some (s + x)

/-- The dense series body: from, step and the pre-allocated data array. -/
structure TSData where
  tfrom : Int
  step : Int
  data : List V
deriving DecidableEq, Repr

/-- A *TimeSeries pointer: none models the nil series. -/
abbrev TS := Option TSData

/-- IsEmpty: ts == nil. -/
def IsEmpty (ts : TS) : Bool := ts.isNone

/-- Last: NaN for the nil series, otherwise the last array slot.  The Go code
    indexes data[len(data)-1]; the unreachable empty-array case is mapped to
    the missing sentinel here. -/
def Last (ts : TS) : V :=
  match ts with
  | none => none
  | some d => (d.data.getLast?).getD none

/-- Modelled from the spec: the Next/Value methods of Iterator are not in the
    sampled source (only the construction in Iter is); per the spec, iteration
    yields the (time, value) pairs of the series in chronological order,
    including missing values, with index i at time from + i*step. -/
def iterList (ts : TS) : List (Int × V) :=
  match ts with
  | none => []
  | some d =>
      (List.range d.data.length).map fun i : ℕ =>
        ((d.tfrom + (i : Int) * d.step : Int), (d.data[i]?).getD none)

/-- The iterator walk of Reduce: t starts at from and advances by step, the
    accumulator is threaded through f. -/
def reduceGo (f : F) (step : Int) : Int → V → List V → V
  | _, acc, [] => acc
  | t, acc, v :: vs => reduceGo f step (t + step) (f t acc v) vs

/-- Reduce: NaN on the nil series, otherwise a fold of f over (t, acc, v)
    starting from the NaN accumulator. -/
def Reduce (f : F) (ts : TS) : V :=
  match ts with
  | none => none
  | some d => reduceGo f d.step d.tfrom none d.data

/-- One step of the Increase switch: prev and prevStatus are the values of the
    counter and of the status series at the previous index, v the current
    counter value. -/
def incStep (prev prevStatus v : V) : V :=
  match v, prev with
  | some vv, some pv => if 0 ≤ vv - pv then some (vv - pv) else some vv
  | _, _ => if prev = none ∧ prevStatus = some 1 then v else none

/-- The Increase loop: walks both series in lockstep (stopping at the shorter
    one) carrying prev and prevStatus. -/
def increaseGo : List V → List V → V → V → List V
  | v :: xs, s :: ss, prev, prevStatus =>
      incStep prev prevStatus v :: increaseGo xs ss v s
  | _, _, _, _ => []

/-- Increase(x, status): nil when either operand is nil, otherwise the delta
    series anchored at the from/step of x. -/
def Increase (x status : TS) : TS :=
  match x, status with
  | some xd, some sd => some ⟨xd.tfrom, xd.step, increaseGo xd.data sd.data none none⟩
  | _, _ => none

/-- Aggregate2(x, y, f): nil when either operand is nil; the Go code allocates
    a zero-filled array of the length of x and writes f pointwise while both
    iterators produce values, so any tail beyond the length of y stays 0. -/
def Aggregate2 (x y : TS) (f : V → V → V) : TS :=
  match x, y with
  | some xd, some yd =>
      let zipped := List.zipWith f xd.data yd.data
      some ⟨xd.tfrom, xd.step,
            zipped ++ List.replicate (xd.data.length - zipped.length) (some 0)⟩
  | _, _ => none

/-- The data array of a series, empty for nil; used to state per-index facts. -/
def tsData (ts : TS) : List V :=
  match ts with
  | none => []
  | some d => d.data

/-- Modelled from the spec: Time.Truncate quantizes a timestamp down to the
    step grid; the method body itself is not in the sampled source. -/
def truncate (t step : Int) : Int := (t / step) * step

/-- The state of one Fill call, instrumented with the list of array
    assignments the loop performs (index and stored value), so that bounds
    and overwrite behaviour can be stated about executed writes. -/
structure FillState where
  arr : List V
  changed : Bool
  writes : List (ℕ × V)
deriving DecidableEq, Repr

/-- Resolution of the iNext == -1 branch of the Fill loop: on first
    acceptance, iNext becomes (t - ts.from)/ts.step and tNext becomes t
    truncated to the step of the series; afterwards both are carried over. -/
def resolveIdx (tsFrom tsStep t tNext : Int) (iNext : Option ℕ) : ℕ × Int :=
  match iNext with
  | some i => (i, tNext)
  | none => (((t - tsFrom) / tsStep).toNat, truncate t tsStep)

/-- The Fill loop: t is the time of the head input sample and advances by the
    input step; it breaks past the end of the window, skips samples before
    the window start or before tNext, and otherwise stores the sample
    (missing or not) at iNext, advancing iNext and tNext. -/
def fillLoop (tsFrom tsStep toLim dStep : Int) :
    List V → Int → Int → Option ℕ → FillState → FillState
  | [], _, _, _, st => st
  | v :: rest, t, tNext, iNext, st =>
      if toLim < t then st
      else if t < tsFrom then
        fillLoop tsFrom tsStep toLim dStep rest (t + dStep) tNext iNext st
      else if t < tNext then
        fillLoop tsFrom tsStep toLim dStep rest (t + dStep) tNext iNext st
      else
        let r := resolveIdx tsFrom tsStep t tNext iNext
        if r.1 < st.arr.length then
          fillLoop tsFrom tsStep toLim dStep rest (t + dStep) (r.2 + tsStep) (some (r.1 + 1))
            ⟨st.arr.set r.1 v, st.changed || v.isSome, st.writes ++ [(r.1, v)]⟩
        else
          fillLoop tsFrom tsStep toLim dStep rest (t + dStep) r.2 (some r.1) st

/-- Fill(from, step, data): runs the loop against the window of the series,
    whose last slot sits at ts.from + (len-1)*ts.step. -/
def Fill (ts : TSData) (frm step : Int) (data : List V) : FillState :=
  fillLoop ts.tfrom ts.step (ts.tfrom + ((ts.data.length : Int) - 1) * ts.step)
    step data frm 0 none ⟨ts.data, false, []⟩

lemma fillLoop_writes_bound (tsFrom tsStep toLim dStep : Int) (l : List V) :
    ∀ (t tNext : Int) (iNext : Option ℕ) (st : FillState),
      ∀ p ∈ (fillLoop tsFrom tsStep toLim dStep l t tNext iNext st).writes,
        p ∈ st.writes ∨ p.1 < st.arr.length := by
  induction l with
  | nil =>
    intro t tNext iNext st p hp
    exact Or.inl hp
  | cons v rest ih =>
    intro t tNext iNext st p hp
    rw [fillLoop] at hp
    split at hp
    · exact Or.inl hp
    · split at hp
      · exact ih _ _ _ _ p hp
      · split at hp
        · exact ih _ _ _ _ p hp
        · dsimp only at hp
          split at hp
          · rename_i hlt
            rcases ih _ _ _ _ p hp with hmem | hless
            · rcases List.mem_append.1 hmem with h1 | h1
              · exact Or.inl h1
              · simp only [List.mem_singleton] at h1
                subst h1
                exact Or.inr hlt
            · exact Or.inr (by simpa using hless)
          · exact ih _ _ _ _ p hp

lemma fillLoop_changed_inv (tsFrom tsStep toLim dStep : Int) (l : List V) :
    ∀ (t tNext : Int) (iNext : Option ℕ) (st : FillState),
      st.changed = st.writes.any (fun p => p.2.isSome) →
      (fillLoop tsFrom tsStep toLim dStep l t tNext iNext st).changed =
        (fillLoop tsFrom tsStep toLim dStep l t tNext iNext st).writes.any
          (fun p => p.2.isSome) := by
  induction l with
  | nil =>
    intro t tNext iNext st h
    exact h
  | cons v rest ih =>
    intro t tNext iNext st h
    rw [fillLoop]
    split
    · exact h
    · split
      · exact ih _ _ _ _ h
      · split
        · exact ih _ _ _ _ h
        · dsimp only
          split
          · exact ih _ _ _ _ (by simp [h])
          · exact ih _ _ _ _ h

/-- Claim C5 counterexample: Fill stores missing input values unconditionally,
    so a second Fill call overwrites a real value written by an earlier call
    with the missing sentinel: filling [5] then [NaN] over a one-slot series
    ends with [NaN]. -/
theorem c5_fill_counterexample :
    (Fill ⟨0, 1, [none]⟩ 0 1 [some 5]).arr = [some 5] ∧
    (Fill ⟨0, 1, (Fill ⟨0, 1, [none]⟩ 0 1 [some 5]).arr⟩ 0 1 [none]).arr = [none] := by
  decide

/-- Claim C5 (amended): Fill never writes an array index outside the window
    (every executed write lands inside the data array), and it returns true
    iff some non-missing value was written; however, Fill also copies missing
    input values, so a later call may overwrite a real value with the missing
    sentinel. -/
theorem c5_fill_amended :
    (∀ (ts : TSData) (frm step : Int) (data : List V),
        ∀ p ∈ (Fill ts frm step data).writes, p.1 < ts.data.length) ∧
    (∀ (ts : TSData) (frm step : Int) (data : List V),
        (Fill ts frm step data).changed = true ↔
          ∃ p ∈ (Fill ts frm step data).writes, p.2 ≠ none) := by
  constructor
  · intro ts frm step data p hp
    rcases fillLoop_writes_bound _ _ _ _ data frm 0 none ⟨ts.data, false, []⟩ p hp with h | h
    · simp at h
    · simpa using h
  · intro ts frm step data
    have h := fillLoop_changed_inv ts.tfrom ts.step
      (ts.tfrom + ((ts.data.length : Int) - 1) * ts.step) step data frm 0 none
      ⟨ts.data, false, []⟩ (by simp)
    rw [Fill, h]
    simp [List.any_eq_true, Option.isSome_iff_ne_none]

theorem c5_fill_amended_witness :
    ((0 : ℕ), (some (5:ℚ) : V)).1 < (⟨0, 1, [none]⟩ : TSData).data.length :=
  c5_fill_amended.1 ⟨0, 1, [none]⟩ 0 1 [some 5] (0, some 5) (by decide)

/-- Spec-side formulation of the per-step Increase rule, written from the
    wording of claim C1: curr is the current counter value, prev the previous
    counter value, pstat the status value at the prior step. -/
def increaseDeltaSpec (curr prev pstat : V) : V :=
  match curr, prev with
  | some c, some p => if 0 ≤ c - p then some (c - p) else some c
  | some c, none => if pstat = some 1 then some c else none
  | none, _ => none

lemma incStep_eq_spec (p q v : V) : incStep p q v = increaseDeltaSpec v p q := by
  cases v <;> cases p <;> simp [incStep, increaseDeltaSpec]

lemma increaseGo_getElem (xs ys : List V) (p q : V) (h : xs.length = ys.length)
    (i : ℕ) (hi : i < xs.length) :
    (increaseGo xs ys p q)[i]? =
      some (incStep (if i = 0 then p else (xs[i-1]?).getD none)
                    (if i = 0 then q else (ys[i-1]?).getD none)
                    ((xs[i]?).getD none)) := by
  induction xs generalizing ys p q i with
  | nil => simp at hi
  | cons x xs ih =>
    cases ys with
    | nil => simp at h
    | cons y ys =>
      cases i with
      | zero => simp [increaseGo]
      | succ j =>
        have hlen : xs.length = ys.length := by simpa using h
        have hj : j < xs.length := by simpa using hi
        have hrec := ih ys x y hlen j hj
        simp only [increaseGo, List.getElem?_cons_succ]
        rw [hrec]
        cases j with
        | zero => simp
        | succ k => simp

unseal Rat.add Rat.sub in
/-- Claim C1: for every counter series x and status series s of equal shape,
    Increase produces at each step: curr-prev when both current and previous
    values are present and the difference is nonnegative; curr when both are
    present and curr < prev (counter reset); curr when the previous value is
    missing but the status series equals 1 at the prior step; missing
    otherwise.  In particular, counters [10,15,12,14] with status [1,1,1,1]
    give [NaN,5,12,2]. -/
theorem c1_increase_rule :
    (∀ (frm st : Int) (xs ys : List V), xs.length = ys.length →
        ∀ i : ℕ, i < xs.length →
          (tsData (Increase (some ⟨frm, st, xs⟩) (some ⟨frm, st, ys⟩)))[i]? =
            some (increaseDeltaSpec ((xs[i]?).getD none)
                    (if i = 0 then none else (xs[i-1]?).getD none)
                    (if i = 0 then none else (ys[i-1]?).getD none))) ∧
    Increase (some ⟨0, 1, [some 10, some 15, some 12, some 14]⟩)
        (some ⟨0, 1, [some 1, some 1, some 1, some 1]⟩) =
      some ⟨0, 1, [none, some 5, some 12, some 2]⟩ := by
  constructor
  · intro frm st xs ys h i hi
    have hrec := increaseGo_getElem xs ys none none h i hi
    simp only [Increase, tsData]
    rw [hrec, incStep_eq_spec]
  · decide

unseal Rat.add Rat.sub in
theorem c1_increase_rule_witness :
    (tsData (Increase (some ⟨0, 1, [some 10, some 15]⟩)
        (some ⟨0, 1, [some 1, some 1]⟩)))[1]? =
      some (increaseDeltaSpec (some 15) (some 10) (some 1)) := by
  have h := c1_increase_rule.1 0 1 [some 10, some 15] [some 1, some 1] rfl 1 (by decide)
  simpa using h

/-- Claim C3 counterexample: reducing a series whose values are all NaN with
    NanSum yields 0, not NaN, because NanSum resets a NaN accumulator to 0
    before testing its second operand. -/
theorem c3_nansum_counterexample :
    Reduce NanSum (some ⟨0, 1, [none, none]⟩) ≠ none := by decide

lemma reduceGo_nansum_const (st : Int) (l : List V) (hall : ∀ v ∈ l, v = none)
    (t : Int) (s : ℚ) : reduceGo NanSum st t (some s) l = some s := by
  induction l generalizing t with
  | nil => rfl
  | cons v vs ih =>
    have hv : v = none := hall v (by simp)
    subst hv
    have hvs : ∀ w ∈ vs, w = none := fun w hw => hall w (by simp [hw])
    simp [reduceGo, NanSum, ih hvs]

lemma reduceGo_nansum_isSome (st : Int) (l : List V) :
    ∀ (t : Int) (s : ℚ), (reduceGo NanSum st t (some s) l).isSome := by
  induction l with
  | nil =>
    intro t s
    rfl
  | cons v vs ih =>
    intro t s
    cases v with
    | none => simpa [reduceGo, NanSum] using ih (t + st) s
    | some x => simpa [reduceGo, NanSum] using ih (t + st) (s + x)

unseal Rat.add Rat.sub in
/-- Claim C3 (amended): NanSum treats missing as zero for summation: reducing
    [NaN,2,NaN,3] yields 5, a nonempty all-NaN series reduces to 0, and the
    reduction yields missing exactly when the series has no samples (the nil
    series, or a series whose data array is empty) — never on a series with
    at least one sample. -/
theorem c3_nansum_amended :
    Reduce NanSum (some ⟨0, 1, [none, some 2, none, some 3]⟩) = some 5 ∧
    (∀ (frm st : Int) (l : List V), l ≠ [] → (∀ v ∈ l, v = none) →
        Reduce NanSum (some ⟨frm, st, l⟩) = some 0) ∧
    (∀ ts : TS, Reduce NanSum ts = none ↔ tsData ts = []) := by
  refine ⟨by decide, ?_, ?_⟩
  · intro frm st l hne hall
    cases l with
    | nil => exact absurd rfl hne
    | cons v vs =>
      have hv : v = none := hall v (by simp)
      subst hv
      have hvs : ∀ w ∈ vs, w = none := fun w hw => hall w (by simp [hw])
      show reduceGo NanSum st frm none (none :: vs) = some 0
      simp [reduceGo, NanSum, reduceGo_nansum_const st vs hvs]
  · intro ts
    cases ts with
    | none => simp [Reduce, tsData]
    | some d =>
      simp only [Reduce, tsData]
      cases hl : d.data with
      | nil => simp [reduceGo]
      | cons v vs =>
        constructor
        · intro h
          have hsome : (reduceGo NanSum d.step d.tfrom none (v :: vs)).isSome := by
            cases v with
            | none =>
              simpa [reduceGo, NanSum] using
                reduceGo_nansum_isSome d.step vs (d.tfrom + d.step) 0
            | some x =>
              simpa [reduceGo, NanSum] using
                reduceGo_nansum_isSome d.step vs (d.tfrom + d.step) (0 + x)
          rw [h] at hsome
          simp at hsome
        · intro h
          simp at h

theorem c3_nansum_amended_witness :
    Reduce NanSum (some ⟨0, 1, [none]⟩) = some 0 :=
  c3_nansum_amended.2.1 0 1 [none] (by simp) (by simp)

/-- Claim C9: every read operation is total on the nil series, which behaves
    as the empty series: IsEmpty holds exactly for nil, Last and Reduce on
    nil return the missing sentinel, iteration over nil yields no values, and
    Increase and Aggregate2 return nil when either operand is nil. -/
theorem c9_nil_series_total :
    (∀ ts : TS, IsEmpty ts = true ↔ ts = none) ∧
    Last none = none ∧
    (∀ f : F, Reduce f none = none) ∧
    iterList none = [] ∧
    (∀ s : TS, Increase none s = none) ∧
    (∀ x : TS, Increase x none = none) ∧
    (∀ (y : TS) (f : V → V → V), Aggregate2 none y f = none) ∧
    (∀ (x : TS) (f : V → V → V), Aggregate2 x none f = none) := by
  refine ⟨?_, rfl, fun f => rfl, rfl, fun s => rfl, ?_, fun y f => rfl, ?_⟩
  · intro ts
    cases ts <;> simp [IsEmpty]
  · intro x
    cases x <;> rfl
  · intro x f
    cases x <;> rfl

/-- ApplicationId from the model package: a (namespace, kind, name) triple;
    ApplicationKind is a plain string type in Go, so kind is a String here,
    and the kind constants keep their Go string values (Deployment,
    StaticPods, ReplicaSet, ...). -/
structure ApplicationId where
  ns : String
  kind : String
  name : String
deriving DecidableEq, Repr

/-- The pod block of an instance: the owning replica-set name and the
    kube_pod_status_phase life-span series, the two pod fields the claims
    exercise. -/
structure PodM where
  replicaSet : String
  lifeSpan : TS
deriving DecidableEq, Repr

/-- An application instance: its name, optional pod metadata, and the images
    of its containers (the only container field the deployment claims use). -/
structure InstanceM where
  name : String
  pod : Option PodM
  images : List String
deriving DecidableEq, Repr

/-- ApplicationDeployment: the persisted rollout record.  MetricsSnapshot is
    modelled by the (from, to) window it was computed over; a zero Time is
    the Go zero value for an unset FinishedAt. -/
structure ApplicationDeployment where
  appId : ApplicationId
  name : String
  startedAt : Int
  finishedAt : Int
  snapshot : Option (Int × Int)
deriving DecidableEq, Repr

/-- Application: its id, instances, and the deployment records loaded for
    it.  Remaining Go fields are not needed by any claim. -/
structure Application where
  id : ApplicationId
  instances : List InstanceM
  deployments : List ApplicationDeployment
deriving DecidableEq, Repr

def NewApplication (id : ApplicationId) : Application := ⟨id, [], []⟩

/-- World: the applications list (nodes and services play no role in the
    claims). -/
structure World where
  applications : List Application
deriving DecidableEq, Repr

/-- GetApplication: linear scan returning the first application whose id
    equals the argument (value equality). -/
def GetApplication (w : World) (id : ApplicationId) : Option Application :=
  w.applications.find? fun a => a.id == id

/-- GetOrCreateApplication: returns the existing application, or appends a
    fresh one; the returned application is the one stored in the world. -/
def GetOrCreateApplication (w : World) (id : ApplicationId) : World × Application :=
  match GetApplication w id with
  | some a => (w, a)
  | none => (⟨w.applications ++ [NewApplication id]⟩, NewApplication id)

lemma find?_append_none {α : Type} (p : α → Bool) (l₁ l₂ : List α)
    (h : l₁.find? p = none) : (l₁ ++ l₂).find? p = l₂.find? p := by
  induction l₁ with
  | nil => rfl
  | cons a l ih =>
    rw [List.find?_cons] at h
    rcases hpa : p a with hf | ht
    · rw [hpa] at h
      simp only [List.cons_append, List.find?_cons, hpa]
      exact ih h
    · rw [hpa] at h
      simp at h

lemma getApplication_after_create (w : World) (id : ApplicationId)
    (h : GetApplication w id = none) :
    GetApplication ⟨w.applications ++ [NewApplication id]⟩ id =
      some (NewApplication id) := by
  unfold GetApplication at h ⊢
  rw [find?_append_none _ _ _ h]
  simp [NewApplication]

/-- Claim C8: GetOrCreateApplication is idempotent under value equality of
    ApplicationId: a second call with the same id returns the same stored
    application and leaves the world unchanged, and the applications list
    never acquires two entries with equal ids. -/
theorem c8_get_or_create_idempotent :
    (∀ (w : World) (id : ApplicationId),
        (GetOrCreateApplication (GetOrCreateApplication w id).1 id).1 =
          (GetOrCreateApplication w id).1 ∧
        (GetOrCreateApplication (GetOrCreateApplication w id).1 id).2 =
          (GetOrCreateApplication w id).2) ∧
    (∀ (w : World) (id : ApplicationId),
        w.applications.Pairwise (fun a b => a.id ≠ b.id) →
        (GetOrCreateApplication w id).1.applications.Pairwise
          (fun a b => a.id ≠ b.id)) := by
  constructor
  · intro w id
    cases h : GetApplication w id with
    | some a =>
      unfold GetOrCreateApplication
      simp [h]
    | none =>
      have h2 := getApplication_after_create w id h
      unfold GetOrCreateApplication
      simp [h, h2]
  · intro w id hpw
    cases h : GetApplication w id with
    | some a =>
      unfold GetOrCreateApplication
      simpa [h] using hpw
    | none =>
      unfold GetOrCreateApplication
      simp only [h]
      rw [List.pairwise_append]
      refine ⟨hpw, by simp, ?_⟩
      intro a ha b hb
      simp only [List.mem_singleton] at hb
      subst hb
      unfold GetApplication at h
      have := List.find?_eq_none.1 h a ha
      simpa [NewApplication] using this

theorem c8_witness :
    (GetOrCreateApplication ⟨[]⟩ ⟨"default", "Deployment", "app"⟩).1.applications.Pairwise
      (fun a b => a.id ≠ b.id) :=
  c8_get_or_create_idempotent.2 ⟨[]⟩ ⟨"default", "Deployment", "app"⟩ List.Pairwise.nil

/-- strings.TrimSuffix: drops the suffix when present, otherwise returns the
    string unchanged (characters model the Go bytes; all claim inputs are
    ASCII). -/
def trimSuffix (s suf : String) : String :=
  if suf.data.isSuffixOf s.data then ⟨s.data.take (s.data.length - suf.data.length)⟩
  else s

/-- The labels of one kube_pod_info sample that podInfo reads. -/
structure PodSample where
  pod : String
  ns : String
  ownerName : String
  ownerKind : String
  nodeName : String
deriving DecidableEq, Repr

/-- The ownership switch of podInfo: static-pod classification for an empty,
    <none> or Node owner kind; the owner pair when both owner labels are
    non-empty; otherwise the sample is dropped (none). -/
def podOwnerAppId (s : PodSample) : Option ApplicationId :=
  if s.ownerKind = "" ∨ s.ownerKind = "<none>" ∨ s.ownerKind = "Node" then
    some ⟨s.ns, "StaticPods", trimSuffix s.pod ("-" ++ s.nodeName)⟩
  else if s.ownerName ≠ "" ∧ s.ownerKind ≠ "" then
    some ⟨s.ns, s.ownerKind, s.ownerName⟩
  else
    none

/-- GetOrCreateInstance on an application: repeated observations of one pod
    name mutate the same instance rather than duplicating it. -/
def GetOrCreateInstance (a : Application) (instName : String) : Application :=
  if a.instances.any (fun i => i.name == instName) then a
  else { a with instances := a.instances ++ [⟨instName, none, []⟩] }

/-- The instance.Pod assignment of podInfo: a fresh pod block whose
    ReplicaSet is the owner name when the owner kind is ReplicaSet. -/
def setPodBlock (a : Application) (instName rs : String) : Application :=
  { a with instances := a.instances.map fun i =>
      if i.name == instName then { i with pod := some ⟨rs, none⟩ } else i }

/-- One iteration of the podInfo loop: resolve the owner id; when dropped the
    world is untouched, otherwise get-or-create the application and its
    instance and set the pod block. -/
def podInfoStep (w : World) (s : PodSample) : World :=
  match podOwnerAppId s with
  | none => w
  | some id =>
      let w1 := (GetOrCreateApplication w id).1
      ⟨w1.applications.map fun a =>
          if a.id == id then
            setPodBlock (GetOrCreateInstance a s.pod) s.pod
              (if s.ownerKind = "ReplicaSet" then s.ownerName else "")
          else a⟩

/-- Claim C4 counterexample: a pod whose owner kind is Node and whose owner
    name is non-empty is classified as a static pod, not by the owner
    (kind, name) pair as the claim asserts for any two non-empty owner
    labels. -/
theorem c4_podinfo_counterexample :
    podOwnerAppId ⟨"kube-proxy-node1", "kube-system", "rs-1", "Node", "node1"⟩ =
      some ⟨"kube-system", "StaticPods", "kube-proxy"⟩ ∧
    podOwnerAppId ⟨"kube-proxy-node1", "kube-system", "rs-1", "Node", "node1"⟩ ≠
      some ⟨"kube-system", "Node", "rs-1"⟩ := by
  decide

/-- Claim C4 (amended): the static-pod rule takes precedence: owner kind
    empty, <none> or Node gives a static-pod application named by stripping
    the -<nodeName> suffix; for any other owner kind, a non-empty owner name
    gives the owner (kind, name) ApplicationId, and an empty owner name drops
    the sample, creating no application or instance. -/
theorem c4_podinfo_amended :
    (∀ s : PodSample,
        (s.ownerKind = "" ∨ s.ownerKind = "<none>" ∨ s.ownerKind = "Node") →
        podOwnerAppId s =
          some ⟨s.ns, "StaticPods", trimSuffix s.pod ("-" ++ s.nodeName)⟩) ∧
    (∀ s : PodSample,
        ¬(s.ownerKind = "" ∨ s.ownerKind = "<none>" ∨ s.ownerKind = "Node") →
        s.ownerName ≠ "" →
        podOwnerAppId s = some ⟨s.ns, s.ownerKind, s.ownerName⟩) ∧
    (∀ (s : PodSample) (w : World),
        ¬(s.ownerKind = "" ∨ s.ownerKind = "<none>" ∨ s.ownerKind = "Node") →
        s.ownerName = "" →
        podOwnerAppId s = none ∧ podInfoStep w s = w) := by
  refine ⟨?_, ?_, ?_⟩
  · intro s h
    simp only [podOwnerAppId, if_pos h]
  · intro s h hn
    have hk : s.ownerKind ≠ "" := fun he => h (Or.inl he)
    simp only [podOwnerAppId, if_neg h, if_pos (And.intro hn hk)]
  · intro s w h hn
    have hdrop : podOwnerAppId s = none := by
      simp only [podOwnerAppId, if_neg h]
      rw [if_neg]
      intro hc
      exact hc.1 hn
    exact ⟨hdrop, by simp [podInfoStep, hdrop]⟩

theorem c4_podinfo_amended_witness :
    podOwnerAppId ⟨"etcd-node1", "kube-system", "", "", "node1"⟩ =
      some ⟨"kube-system", "StaticPods", "etcd"⟩ := by
  have h := c4_podinfo_amended.1 ⟨"etcd-node1", "kube-system", "", "", "node1"⟩
    (Or.inl rfl)
  rw [h]
  decide

/-- Byte-wise character order used by sort.Strings (claim inputs are ASCII,
    where character order and byte order agree). -/
def charLtB (a b : Char) : Bool := Nat.blt a.toNat b.toNat

def charListLtB : List Char → List Char → Bool
  | [], [] => false
  | [], _ :: _ => true
  | _ :: _, [] => false
  | a :: as, b :: bs =>
      if charLtB a b then true
      else if charLtB b a then false
      else charListLtB as bs

def strLtB (a b : String) : Bool := charListLtB a.data b.data

def insertSorted (a : String) : List String → List String
  | [] => [a]
  | b :: bs => if strLtB b a then b :: insertSorted a bs else a :: b :: bs

/-- sort.Strings: ascending lexicographic order. -/
def sortStrings (l : List String) : List String := l.foldr insertSorted []

/-- Whether a life-span series reads strictly positive at round r; a missing
    value compares false, as NaN > 0 does in Go. -/
def activeAt (d : TSData) (r : ℕ) : Bool :=
  match (d.data[r]?).getD none with
  | some x => decide (0 < x)
  | none => false

/-- The number of lockstep rounds of the calcDeployments walk: iteration
    stops when any iterator is exhausted, and the partial round is
    discarded, so exactly the shortest length many rounds are recorded. -/
def minLen : List (String × TSData) → ℕ
  | [] => 0
  | p :: ps => ps.foldl (fun a q => Nat.min a q.2.data.length) p.2.data.length

/-- The time stamp of round r: the Go loop keeps the (t, v) pair assigned by
    the last map entry iterated; the walk is only exercised on series
    sharing one grid, where every entry agrees, and list order models the
    map iteration order. -/
def rssTime (pairs : List (String × TSData)) (r : ℕ) : Int :=
  match pairs.getLast? with
  | some p => p.2.tfrom + (r : Int) * p.2.step
  | none => 0

/-- One recorded round: its time and the sorted active replica-set names. -/
structure Rss where
  time : Int
  names : List String
deriving DecidableEq, Repr

/-- rssOverTime: the synchronized walk over all life-span series; a round
    records the sorted names with a positive value and rounds with no active
    name are skipped. -/
def rssList (pairs : List (String × TSData)) : List Rss :=
  (List.range (minLen pairs)).filterMap fun r =>
    let names := sortStrings ((pairs.filter fun p => activeAt p.2 r).map Prod.fst)
    if names.isEmpty then none else some ⟨rssTime pairs r, names⟩

/-- The rolling state of the calcDeployments walk.  In Go the in-progress
    record already sits (as a pointer) at the end of the deployments slice;
    here the closed records are kept in deployments and the in-progress one
    in current, and the final list is deployments ++ current.toList, which
    preserves the Go append order because a new record is only ever appended
    while no other record is in progress. -/
structure DState where
  deployments : List ApplicationDeployment
  current : Option ApplicationDeployment
  prev : String
deriving DecidableEq, Repr

/-- One step of the calcDeployments state machine, keyed on the number of
    active names of the round. -/
def depStep (appId : ApplicationId) (st : DState) (r : Rss) : DState :=
  match r.names with
  | [] => st
  | [curr] =>
      if st.prev = "" then { st with prev := curr }
      else
        let closed :=
          match st.current with
          | some d =>
              st.deployments ++
                [if curr = d.name then { d with finishedAt := r.time } else d]
          | none => st.deployments
        if st.prev = curr then ⟨closed, none, st.prev⟩
        else ⟨closed ++ [⟨appId, curr, r.time, r.time, none⟩], none, curr⟩
  | _ =>
      if st.prev = "" then st
      else
        match st.current with
        | some _ => st
        | none =>
            let name := (r.names.filter fun n => n != st.prev).headD ""
            { st with current := some ⟨appId, name, r.time, 0, none⟩, prev := name }

def depWalk (appId : ApplicationId) (rs : List Rss) : DState :=
  rs.foldl (depStep appId) ⟨[], none, ""⟩

/-- The core of calcDeployments, from the life-span series per replica-set
    name down to the produced deployment records (image details, attached
    afterwards in Go, play no role in any claim). -/
def calcFromLifeSpans (appId : ApplicationId) (pairs : List (String × TSData)) :
    List ApplicationDeployment :=
  if pairs.isEmpty then []
  else
    let st := depWalk appId (rssList pairs)
    st.deployments ++ st.current.toList

/-- The two life-span series of claim C2 on a shared unit grid starting at
    time 0. -/
def c2Pairs : List (String × TSData) :=
  [("rs-a", ⟨0, 1, [some 1, some 1, some 1, some 0, some 0, some 1, some 1, some 1]⟩),
   ("rs-b", ⟨0, 1, [some 0, some 0, some 0, some 1, some 1, some 0, some 0, some 0]⟩)]

def c2AppId : ApplicationId := ⟨"default", "Deployment", "app"⟩

/-- Claim C2 counterexample: the run on rs-a=[1,1,1,0,0,1,1,1] and
    rs-b=[0,0,0,1,1,0,0,0] produces two deployment records, not exactly one:
    the cut-over back to rs-a at the sixth step opens and closes a second,
    rs-a named record. -/
theorem c2_deployments_counterexample :
    (calcFromLifeSpans c2AppId c2Pairs).length ≠ 1 := by decide

/-- Claim C2 (amended): the run yields two instantaneous opened-and-closed
    deployments, rs-b with StartedAt = FinishedAt = the first middle step
    (time 3) and rs-a with StartedAt = FinishedAt = the step where rs-a
    resumes (time 5); the rolling previous-active-name state ends at
    rs-a. -/
theorem c2_deployments_amended :
    calcFromLifeSpans c2AppId c2Pairs =
      [⟨c2AppId, "rs-b", 3, 3, none⟩, ⟨c2AppId, "rs-a", 5, 5, none⟩] ∧
    (depWalk c2AppId (rssList c2Pairs)).prev = "rs-a" := by decide

/-- The replica-set name of an instance; empty when the pod block is unset
    (both cases are skipped by calcDeployments). -/
def rsOf (i : InstanceM) : String :=
  match i.pod with
  | some p => p.replicaSet
  | none => ""

def podLifeSpan (i : InstanceM) : TS :=
  match i.pod with
  | some p => p.lifeSpan
  | none => none

/-- The replica-set names of the lifeSpans map, in first-appearance order
    (Go map order is arbitrary; no claim depends on it). -/
def rsNames (insts : List InstanceM) : List String :=
  insts.foldl (fun acc i =>
    let n := rsOf i
    if n = "" ∨ n ∈ acc then acc else acc ++ [n]) []

def zipWithTimes (f : F) : Int → Int → List V → List V → List V
  | t, step, x :: xs, y :: ys => f t x y :: zipWithTimes f (t + step) step xs ys
  | _, _, _, _ => []

/-- Modelled from the spec: the Aggregate type is not in the sampled source;
    per the spec it folds an unbounded number of same-shaped incoming series
    pointwise with its combinator into a running series. -/
def aggAdd (f : F) (acc incoming : TS) : TS :=
  match acc, incoming with
  | none, s => s
  | some a, none => some a
  | some a, some b => some ⟨a.tfrom, a.step, zipWithTimes f a.tfrom a.step a.data b.data⟩

/-- A nil aggregated series iterates like an empty one, so it is represented
    by an empty data array for the walk. -/
def toTSData : TS → TSData
  | none => ⟨0, 0, []⟩
  | some d => d

def lifeSpansOf (insts : List InstanceM) : List (String × TSData) :=
  (rsNames insts).map fun n =>
    (n, toTSData ((insts.filter fun i => rsOf i == n).foldl
        (fun acc i => aggAdd NanSum acc (podLifeSpan i)) none))

/-- calcDeployments: empty for a non-Deployment application or one with no
    instances, otherwise the walk over the per-replica-set life spans. -/
def calcDeployments (app : Application) : List ApplicationDeployment :=
  if app.id.kind ≠ "Deployment" ∨ app.instances = [] then []
  else calcFromLifeSpans app.id (lifeSpansOf app.instances)

/-- calcInitialDeployment: the synthesized record when an application has no
    stored deployments and the walk found none; the name is the replica-set
    of the last instance carrying one (Go map order is arbitrary; no claim
    depends on which instance wins). -/
def calcInitialDeployment (app : Application) (now : Int) : ApplicationDeployment :=
  ⟨app.id,
   app.instances.foldl (fun acc i => if rsOf i ≠ "" then rsOf i else acc) "",
   now, now, none⟩

/-- The records the watcher pass saves or appends for one application: skip
    non-Deployment kinds; synthesize the initial record when nothing is
    stored and nothing was detected; otherwise keep the detected records
    that are new or whose FinishedAt changed against the stored ones. -/
def perAppDiscover (now : Int) (app : Application) : List ApplicationDeployment :=
  if app.id.kind ≠ "Deployment" then []
  else
    let ds := calcDeployments app
    if app.deployments = [] ∧ ds = [] then [calcInitialDeployment app now]
    else
      ds.filter fun d =>
        match app.deployments.find?
            (fun dd => dd.name == d.name && dd.startedAt == d.startedAt) with
        | none => true
        | some known => known.finishedAt != d.finishedAt

def discoverPass (apps : List Application) (now : Int) : List ApplicationDeployment :=
  (apps.map (perAppDiscover now)).flatten

/-- Every record held by the walk state belongs to the application the walk
    was started for. -/
def depOk (appId : ApplicationId) (st : DState) : Prop :=
  (∀ d ∈ st.deployments, d.appId = appId) ∧ ∀ d ∈ st.current.toList, d.appId = appId

lemma depStep_ok (appId : ApplicationId) (st : DState) (r : Rss)
    (h : depOk appId st) : depOk appId (depStep appId st r) := by
  obtain ⟨h1, h2⟩ := h
  cases hn : r.names with
  | nil => simpa [depStep, hn] using ⟨h1, h2⟩
  | cons a tl =>
    cases tl with
    | nil =>
      simp only [depStep, hn]
      split
      · exact ⟨h1, h2⟩
      · cases hc : st.current with
        | none =>
          simp only [hc]
          split
          · exact ⟨h1, by simp⟩
          · constructor
            · intro d hd
              rcases List.mem_append.1 hd with hd1 | hd1
              · exact h1 d hd1
              · simp only [List.mem_singleton] at hd1
                subst hd1
                rfl
            · simp
        | some c =>
          simp only [hc]
          have hcA : c.appId = appId := h2 c (by simp [hc])
          split
          · constructor
            · intro d hd
              rcases List.mem_append.1 hd with hd1 | hd1
              · exact h1 d hd1
              · simp only [List.mem_singleton] at hd1
                subst hd1
                split <;> simpa using hcA
            · simp
          · constructor
            · intro d hd
              rcases List.mem_append.1 hd with hd1 | hd1
              · rcases List.mem_append.1 hd1 with hd2 | hd2
                · exact h1 d hd2
                · simp only [List.mem_singleton] at hd2
                  subst hd2
                  split <;> simpa using hcA
              · simp only [List.mem_singleton] at hd1
                subst hd1
                rfl
            · simp
    | cons b tl2 =>
      simp only [depStep, hn]
      split
      · exact ⟨h1, h2⟩
      · cases hc : st.current with
        | none =>
          simp only [hc]
          exact ⟨h1, by simp⟩
        | some c =>
          simp only [hc]
          exact ⟨h1, by simpa [hc] using h2⟩

lemma depWalk_ok_aux (appId : ApplicationId) (rs : List Rss) :
    ∀ st : DState, depOk appId st → depOk appId (rs.foldl (depStep appId) st) := by
  induction rs with
  | nil => intro st h; exact h
  | cons r rest ih =>
    intro st h
    exact ih _ (depStep_ok appId st r h)

lemma calcFromLifeSpans_appId (appId : ApplicationId) (pairs : List (String × TSData)) :
    ∀ d ∈ calcFromLifeSpans appId pairs, d.appId = appId := by
  intro d hd
  unfold calcFromLifeSpans at hd
  split at hd
  · simp at hd
  · have hok := depWalk_ok_aux appId (rssList pairs) ⟨[], none, ""⟩
      ⟨by simp, by simp⟩
    rcases List.mem_append.1 hd with h1 | h1
    · exact hok.1 d h1
    · exact hok.2 d h1

lemma calcDeployments_appId (app : Application) :
    ∀ d ∈ calcDeployments app, d.appId = app.id := by
  intro d hd
  unfold calcDeployments at hd
  split at hd
  · simp at hd
  · exact calcFromLifeSpans_appId app.id _ d hd

lemma perAppDiscover_kind (now : Int) (app : Application) :
    ∀ d ∈ perAppDiscover now app, d.appId.kind = "Deployment" := by
  intro d hd
  unfold perAppDiscover at hd
  split at hd
  · simp at hd
  · rename_i hk
    have hkind : app.id.kind = "Deployment" := not_ne_iff.1 hk
    dsimp only at hd
    split at hd
    · simp only [List.mem_singleton] at hd
      subst hd
      simpa [calcInitialDeployment] using hkind
    · have hmem := (List.mem_filter.1 hd).1
      have := calcDeployments_appId app d hmem
      rw [this]
      exact hkind

/-- Claim C10 counterexample: an instance-less Deployment application with no
    stored deployments is not skipped by the watcher pass: calcDeployments
    returns empty, yet the pass synthesizes and saves an initial deployment
    record for it. -/
theorem c10_kind_counterexample :
    calcDeployments ⟨⟨"default", "Deployment", "app"⟩, [], []⟩ = [] ∧
    discoverPass [⟨⟨"default", "Deployment", "app"⟩, [], []⟩] 100 =
      [⟨⟨"default", "Deployment", "app"⟩, "", 100, 100, none⟩] := by
  decide

/-- Claim C10 (amended): calcDeployments is empty for non-Deployment or
    instance-less applications; the watcher pass skips non-Deployment
    applications entirely (though an instance-less Deployment application may
    still receive a synthesized initial record); every record the pass emits
    belongs to a Deployment-kind application, so none are ever recorded for
    StatefulSet, DaemonSet or static-pod applications. -/
theorem c10_kind_amended :
    (∀ app : Application,
        app.id.kind ≠ "Deployment" ∨ app.instances = [] →
        calcDeployments app = []) ∧
    (∀ (now : Int) (app : Application),
        app.id.kind ≠ "Deployment" → perAppDiscover now app = []) ∧
    (∀ (apps : List Application) (now : Int) (r : ApplicationDeployment),
        r ∈ discoverPass apps now → r.appId.kind = "Deployment") := by
  refine ⟨?_, ?_, ?_⟩
  · intro app h
    simp only [calcDeployments, if_pos h]
  · intro now app h
    simp only [perAppDiscover, if_pos h]
  · intro apps now r hr
    unfold discoverPass at hr
    rcases List.mem_flatten.1 hr with ⟨l, hl, hrl⟩
    rcases List.mem_map.1 hl with ⟨app, _, rfl⟩
    exact perAppDiscover_kind now app r hrl

theorem c10_kind_amended_witness :
    perAppDiscover 100 ⟨⟨"default", "StatefulSet", "db"⟩, [], []⟩ = [] :=
  c10_kind_amended.2.1 100 ⟨⟨"default", "StatefulSet", "db"⟩, [], []⟩ (by decide)

/-- The snapshot window start: FinishedAt + shift, truncated to step. -/
def snapFrom (step shift : Int) (d : ApplicationDeployment) : Int :=
  truncate (d.finishedAt + shift) step

/-- The snapshot window end: from + window, truncated to step. -/
def snapTo (step shift window : Int) (d : ApplicationDeployment) : Int :=
  truncate (snapFrom step shift d + window) step

/-- The bound the window end is checked against: the StartedAt of the next
    deployment, or the latest cache timestamp for the last one. -/
def nextOrNowOf (cacheTo : Int) (deps : List ApplicationDeployment) (i : ℕ) : Int :=
  match deps[i+1]? with
  | some nxt => nxt.startedAt
  | none => cacheTo

/-- One deployment of the snapshot loop: skip when a snapshot is already
    attached or FinishedAt is the zero Time; defer when the window end
    exceeds nextOrNow; otherwise attach the snapshot of the window.  World
    loading and persistence always succeed in the model; the claim is a
    safety property over the guards. -/
def snapshotStep (cacheTo step shift window : Int)
    (deps : List ApplicationDeployment) (i : ℕ) (d : ApplicationDeployment) :
    ApplicationDeployment :=
  if d.snapshot.isSome ∨ d.finishedAt = 0 then d
  else if nextOrNowOf cacheTo deps i < snapTo step shift window d then d
  else { d with snapshot := some (snapFrom step shift d, snapTo step shift window d) }

def snapshotGo (cacheTo step shift window : Int)
    (deps : List ApplicationDeployment) :
    ℕ → List ApplicationDeployment → List ApplicationDeployment
  | _, [] => []
  | i, d :: rest =>
      snapshotStep cacheTo step shift window deps i d ::
        snapshotGo cacheTo step shift window deps (i + 1) rest

/-- snapshotDeploymentMetrics over the deployments of one application,
    parameterized by the configured shift and window durations. -/
def snapshotDeploymentMetrics (cacheTo step shift window : Int)
    (deps : List ApplicationDeployment) : List ApplicationDeployment :=
  snapshotGo cacheTo step shift window deps 0 deps

lemma snapshotGo_getElem (cacheTo step shift window : Int)
    (deps : List ApplicationDeployment) (l : List ApplicationDeployment) :
    ∀ (i j : ℕ),
      (snapshotGo cacheTo step shift window deps i l)[j]? =
        (l[j]?).map (snapshotStep cacheTo step shift window deps (i + j)) := by
  induction l with
  | nil => intro i j; simp [snapshotGo]
  | cons d rest ih =>
    intro i j
    cases j with
    | zero => simp [snapshotGo]
    | succ k =>
      simp only [snapshotGo, List.getElem?_cons_succ]
      rw [ih (i + 1) k]
      have harith : i + 1 + k = i + (k + 1) := by omega
      rw [harith]

/-- Claim C6: for every deployment record, a metrics snapshot is computed at
    most once (a record carrying one is never touched again), and it is
    never computed while the window end exceeds the StartedAt of the next
    deployment, or the latest cache timestamp for the last deployment. -/
theorem c6_snapshot_once_and_not_early :
    ∀ (cacheTo step shift window : Int) (deps : List ApplicationDeployment)
      (i : ℕ) (d : ApplicationDeployment), deps[i]? = some d →
      ∃ r, (snapshotDeploymentMetrics cacheTo step shift window deps)[i]? = some r ∧
        (d.snapshot.isSome → r = d) ∧
        (r ≠ d → d.snapshot = none ∧
          r.snapshot = some (snapFrom step shift d, snapTo step shift window d) ∧
          snapTo step shift window d ≤ nextOrNowOf cacheTo deps i) := by
  intro cacheTo step shift window deps i d hd
  refine ⟨snapshotStep cacheTo step shift window deps i d, ?_, ?_, ?_⟩
  · rw [snapshotDeploymentMetrics, snapshotGo_getElem]
    simp [hd]
  · intro hs
    simp [snapshotStep, hs]
  · intro hne
    by_cases hg : d.snapshot.isSome ∨ d.finishedAt = 0
    · exact absurd (by simp [snapshotStep, hg]) hne
    · have hnone : d.snapshot = none := by
        push_neg at hg
        exact Option.not_isSome_iff_eq_none.1 hg.1
      refine ⟨hnone, ?_⟩
      by_cases h2 : nextOrNowOf cacheTo deps i < snapTo step shift window d
      · exact absurd (by simp [snapshotStep, hg, h2]) hne
      · constructor
        · simp [snapshotStep, hg, h2]
        · exact not_lt.1 h2

theorem c6_snapshot_witness :
    ∃ r, (snapshotDeploymentMetrics 1000 1 1 2
        [⟨⟨"default", "Deployment", "app"⟩, "d1", 0, 10, none⟩])[0]? = some r ∧
      ((⟨⟨"default", "Deployment", "app"⟩, "d1", 0, 10, none⟩ :
          ApplicationDeployment).snapshot.isSome →
        r = ⟨⟨"default", "Deployment", "app"⟩, "d1", 0, 10, none⟩) ∧
      (r ≠ ⟨⟨"default", "Deployment", "app"⟩, "d1", 0, 10, none⟩ →
        (⟨⟨"default", "Deployment", "app"⟩, "d1", 0, 10, none⟩ :
            ApplicationDeployment).snapshot = none ∧
        r.snapshot = some
          (snapFrom 1 1 ⟨⟨"default", "Deployment", "app"⟩, "d1", 0, 10, none⟩,
           snapTo 1 1 2 ⟨⟨"default", "Deployment", "app"⟩, "d1", 0, 10, none⟩) ∧
        snapTo 1 1 2 ⟨⟨"default", "Deployment", "app"⟩, "d1", 0, 10, none⟩ ≤
          nextOrNowOf 1000
            [⟨⟨"default", "Deployment", "app"⟩, "d1", 0, 10, none⟩] 0) :=
  c6_snapshot_once_and_not_early 1000 1 1 2
    [⟨⟨"default", "Deployment", "app"⟩, "d1", 0, 10, none⟩] 0
    ⟨⟨"default", "Deployment", "app"⟩, "d1", 0, 10, none⟩ rfl

/-- The notification integrations that can carry deployment events: whether
    the Slack and the Teams configurations exist with Deployments enabled. -/
structure NotifCfg where
  slackDeployments : Bool
  teamsDeployments : Bool
deriving DecidableEq, Repr

/-- One deployment status considered by sendNotifications: the StartedAt of
    its deployment, the stored overall and per-channel notification states
    and the state to report. -/
structure DeploymentStatus where
  started : Int
  notifState : ℕ
  slackState : ℕ
  teamsState : ℕ
  state : ℕ
deriving DecidableEq, Repr

inductive Channel
  | slack
  | teams
deriving DecidableEq, Repr

/-- timeseries.Day in seconds. -/
def Day : Int := 24 * 60 * 60

/-- The sends attempted for one deployment status: skipped when the
    deployment started more than a day before now, or when the stored state
    already covers the reported state; otherwise each enabled channel whose
    stored state is behind gets a send. -/
def sendForStatus (cfg : NotifCfg) (now : Int) (ds : DeploymentStatus) :
    List (Channel × DeploymentStatus) :=
  if Day < now - ds.started then []
  else if ds.state ≤ ds.notifState then []
  else
    (if cfg.slackDeployments = true ∧ ds.slackState < ds.state then
      [(Channel.slack, ds)] else []) ++
    (if cfg.teamsDeployments = true ∧ ds.teamsState < ds.state then
      [(Channel.teams, ds)] else [])

/-- sendNotifications for one application whose category notification flag is
    given: the statuses list stands for whatever
    CalcApplicationDeploymentStatuses returns. -/
def sendNotifications (cfg : NotifCfg) (notifyCategory : Bool) (now : Int)
    (dss : List DeploymentStatus) : List (Channel × DeploymentStatus) :=
  if notifyCategory then (dss.map (sendForStatus cfg now)).flatten else []

/-- Claim C7: a deployment notification is attempted on some channel only if
    the deployment started within the last 24 hours of the current pass
    timestamp; older deployments are never notified on any channel. -/
theorem c7_notification_freshness :
    ∀ (cfg : NotifCfg) (cat : Bool) (now : Int) (dss : List DeploymentStatus)
      (ev : Channel × DeploymentStatus),
      ev ∈ sendNotifications cfg cat now dss → now - ev.2.started ≤ Day := by
  intro cfg cat now dss ev hev
  unfold sendNotifications at hev
  split at hev
  · rcases List.mem_flatten.1 hev with ⟨l, hl, hevl⟩
    rcases List.mem_map.1 hl with ⟨ds, _, rfl⟩
    unfold sendForStatus at hevl
    split at hevl
    · simp at hevl
    · rename_i hfresh
      split at hevl
      · simp at hevl
      · have hev2 : ev.2 = ds := by
          rcases List.mem_append.1 hevl with h | h
          · split at h
            · simp only [List.mem_singleton] at h
              subst h
              rfl
            · simp at h
          · split at h
            · simp only [List.mem_singleton] at h
              subst h
              rfl
            · simp at h
        rw [hev2]
        exact not_lt.1 hfresh
  · simp at hev

def c7Cfg : NotifCfg := ⟨true, false⟩

def c7DS : DeploymentStatus := ⟨0, 0, 0, 0, 1⟩

theorem c7_notification_freshness_witness :
    (0 : Int) - ((Channel.slack, c7DS) : Channel × DeploymentStatus).2.started ≤ Day :=
  c7_notification_freshness c7Cfg true 0 [c7DS] (Channel.slack, c7DS) (by decide)

end Coroot
